import Mathlib

/-!
Verification of `staticcontroller.py` (tg2staticcontroller).

The development shallowly embeds the controller: paths are Lean `String`s
manipulated at the `List Char` level, timestamps are `Int` (Python floats from
`getmtime`/`time` are abstracted to integral seconds), sizes are `Nat`, and the
filesystem plus the `email.utils` date parser are explicit functional
parameters.  Raised `webob` HTTP exceptions become constructors of
`ResponseOutcome`, and every filesystem touch (`getmtime`, `getsize`, `isfile`,
`open`) is recorded in an access trace so that "no filesystem access" claims
are statable.
-/

namespace StaticController

/-- Embedding of Python `str.split(sep)` on the character list of a string:
splits at every occurrence of `sep`, keeping empty components, and returns
`[[]]` (Python `['']`) on the empty string. -/
def pySplitChar (sep : Char) : List Char → List (List Char)
  | [] => [[]]
  | c :: rest =>
    if c = sep then [] :: pySplitChar sep rest
    else
      match pySplitChar sep rest with
      | [] => [[c]]
      | h :: t => (c :: h) :: t

/-- Embedding of Python `'/'.join(components)` at the character level:
interleaves a `'/'` between consecutive components. -/
def joinSlash : List (List Char) → List Char
  | [] => []
  | [c] => c
  | c :: cs => c ++ '/' :: joinSlash cs

/-- One step of the loop inside `posixpath.join`: `if b.startswith('/'): path = b
elif not path or path.endswith('/'): path += b else: path += '/' + b`. -/
def joinStep (path b : List Char) : List Char :=
  if b.head? = some '/' then b
  else if path = [] ∨ path.getLast? = some '/' then path ++ b
  else path ++ '/' :: b

/-- Embedding of `posixpath.join(a, *ps)` (the `from os.path import join` used
by the controller, on POSIX). -/
def pyJoinData (a : List Char) (ps : List (List Char)) : List Char :=
  ps.foldl joinStep a

/-- The component-processing loop of `posixpath.normpath`: drops `''` and `'.'`
components and resolves `'..'` components against the accumulated prefix. -/
def normFold (initialSlashes : Nat) : List (List Char) → List (List Char) → List (List Char)
  | [], acc => acc
  | comp :: rest, acc =>
    if comp = [] ∨ comp = ['.'] then normFold initialSlashes rest acc
    else if comp ≠ ['.', '.'] ∨ (initialSlashes = 0 ∧ acc = []) ∨
        (acc ≠ [] ∧ acc.getLast? = some ['.', '.']) then
      normFold initialSlashes rest (acc ++ [comp])
    else if acc ≠ [] then normFold initialSlashes rest acc.dropLast
    else normFold initialSlashes rest acc

/-- Embedding of `posixpath.normpath` at the character level: `''` maps to
`'.'`, one or two leading slashes are preserved, components are normalized by
`normFold`, and an empty result maps to `'.'`. -/
def normpathData (p : List Char) : List Char :=
  if p = [] then ['.']
  else
    let initialSlashes : Nat :=
      if p.head? = some '/' then
        if p.take 2 = ['/', '/'] ∧ p.take 3 ≠ ['/', '/', '/'] then 2 else 1
      else 0
    let newComps := normFold initialSlashes (pySplitChar '/' p) []
    let path := List.replicate initialSlashes '/' ++ joinSlash newComps
    if path = [] then ['.'] else path

/-- `posixpath.normpath` on strings. -/
def normpath (p : String) : String := ⟨normpathData p.data⟩

/-- `os.path.normcase` on POSIX is the identity function. -/
def normcase (p : String) : String := p

/-- `StaticController._adapt_path`: `normcase(normpath(path))`. -/
def _adapt_path (path : String) : String := normcase (normpath path)

/-- `os.path.join` on strings (POSIX). -/
def join (a : String) (ps : List String) : String :=
  ⟨pyJoinData a.data (ps.map String.data)⟩

/-- The decimal digit characters used by Python `str()` of an integer. -/
def digitCh : Nat → Char
  | 0 => '0'
  | 1 => '1'
  | 2 => '2'
  | 3 => '3'
  | 4 => '4'
  | 5 => '5'
  | 6 => '6'
  | 7 => '7'
  | 8 => '8'
  | _ => '9'

/-- Fuelled most-significant-first decimal digit expansion. -/
def natCharsAux : Nat → Nat → List Char
  | 0, _ => []
  | fuel + 1, n =>
    if n < 10 then [digitCh n]
    else natCharsAux fuel (n / 10) ++ [digitCh (n % 10)]

/-- Decimal digits of a natural number (fuel `n + 1` always suffices). -/
def natChars (n : Nat) : List Char := natCharsAux (n + 1) n

/-- Embedding of Python `str()` / `'%s'`-formatting of a non-negative integer. -/
def pyStrNat (n : Nat) : String := ⟨natChars n⟩

/-- Embedding of Python `str()` / `'%s'`-formatting of an integer. -/
def pyStrInt (i : Int) : String :=
  if i < 0 then ⟨'-' :: natChars i.natAbs⟩ else ⟨natChars i.natAbs⟩

/-- `StaticController.generate_etag`: `'"%s-%s"' % (last_modified, content_length)`.
`last_modified` comes from `getmtime` (modelled as integral seconds) and
`content_length` from `getsize`. -/
def generate_etag (last_modified : Int) (content_length : Nat) : String :=
  "\"" ++ pyStrInt last_modified ++ "-" ++ pyStrNat content_length ++ "\""

/-- Python `'%02d'` formatting of a small non-negative number. -/
def pad2 (n : Nat) : String := if n < 10 then "0" ++ pyStrNat n else pyStrNat n

/-- The fields of `time.struct_time` used by `make_date` (`tm_wday` has
Monday = 0, as in Python's `time` module). -/
structure TmStruct where
  tm_year : Int
  tm_mon : Nat
  tm_mday : Nat
  tm_hour : Nat
  tm_min : Nat
  tm_sec : Nat
  tm_wday : Nat

/-- Embedding of `time.gmtime` on an integral timestamp, via the standard
civil-from-days calendar conversion. -/
def gmtime (t : Int) : TmStruct :=
  let days : Int := t.fdiv 86400
  let secs : Nat := (t - 86400 * days).toNat
  let z : Int := days + 719468
  let era : Int := z.fdiv 146097
  let doe : Nat := (z - era * 146097).toNat
  let yoe : Nat := (doe - doe / 1460 + doe / 36524 - doe / 146096) / 365
  let y : Int := (yoe : Int) + era * 400
  let doy : Nat := doe - (365 * yoe + yoe / 4 - yoe / 100)
  let mp : Nat := (5 * doy + 2) / 153
  let d : Nat := doy - (153 * mp + 2) / 5 + 1
  let m : Nat := if mp < 10 then mp + 3 else mp - 9
  { tm_year := y + (if m ≤ 2 then 1 else 0)
    tm_mon := m
    tm_mday := d
    tm_hour := secs / 3600
    tm_min := secs % 3600 / 60
    tm_sec := secs % 60
    tm_wday := ((days + 3).emod 7).toNat }

/-- Weekday names used by `make_date`. -/
def dayNames : List String := ["Mon", "Tue", "Wed", "Thu", "Fri", "Sat", "Sun"]

/-- Month names used by `make_date`. -/
def monNames : List String :=
  ["Jan", "Feb", "Mar", "Apr", "May", "Jun", "Jul", "Aug", "Sep", "Oct", "Nov", "Dec"]

/-- `StaticController.make_date` on an integral timestamp:
`'%s, %02d%s%s%s%s %02d:%02d:%02d GMT'` over the `gmtime` fields. -/
def make_date (d : Int) : String :=
  let tm := gmtime d
  (dayNames.getD tm.tm_wday "") ++ ", " ++ pad2 tm.tm_mday ++ " " ++
    (monNames.getD (tm.tm_mon - 1) "") ++ " " ++ pyStrInt tm.tm_year ++ " " ++
    pad2 tm.tm_hour ++ ":" ++ pad2 tm.tm_min ++ ":" ++ pad2 tm.tm_sec ++ " GMT"

/-- The parts of the WSGI `environ` read by the controller.  A header value of
`none` means the header is absent from the request. -/
structure Environ where
  request_method : String
  path_info : String
  http_if_modified_since : Option String
  http_if_none_match : Option String

/-- A record of one filesystem touch performed by `_default`. -/
inductive FsOp where
  | getmtime (path : String)
  | getsize (path : String)
  | isfile (path : String)
  | openFile (path : String)
deriving DecidableEq

/-- The filesystem as seen through the calls `_default` makes: `getmtime` and
`getsize` return `none` when the corresponding Python call raises
`IOError`/`OSError`; `canOpen` is whether `open(filepath, 'rb')` succeeds;
`guess_type` is `mimetypes.guess_type` restricted to its first component. -/
structure FileSystem where
  getmtime : String → Option Int
  getsize : String → Option Nat
  isfile : String → Bool
  canOpen : String → Bool
  guess_type : String → Option String

/-- The terminal outcome of one request, as produced by `_default`
(`webob` exceptions and the streaming success response). -/
inductive ResponseOutcome where
  | Redirect (location : String)
  | NotFound
  | Forbidden
  | BadRequest
  | NotModified (headers : List (String × String))
  | Success (headers : List (String × String))
deriving DecidableEq

/-- Whether an outcome is the streaming success response. -/
def ResponseOutcome.isSuccess : ResponseOutcome → Bool
  | .Success _ => true
  | _ => false

/-- Whether an outcome is the 304 Not Modified response. -/
def ResponseOutcome.isNotModified : ResponseOutcome → Bool
  | .NotModified _ => true
  | _ => false

/-- Python truthiness of an optional header string (`if value:`): `none` for an
absent header or a present-but-empty value. -/
def truthy : Option String → Option String
  | some s => if s = "" then none else some s
  | none => none

/-- `StaticController.has_been_modified`.  `parse_date` abstracts
`mktime_tz(parsedate_tz(value))`, with `none` for the caught
`TypeError`/`OverflowError` that makes `parse_date` raise `HTTPBadRequest`;
that raise is modelled by the `none` result.  The Python truthiness test
`if last_modified and ...` is `last_modified ≠ 0 ∧ ...`. -/
def has_been_modified (parse_date : String → Option Int) (environ : Environ)
    (etag : String) (last_modified : Int) : Option Bool :=
  if environ.request_method ≠ "GET" ∧ environ.request_method ≠ "HEAD" then some false
  else
    match truthy environ.http_if_modified_since with
    | none =>
      match truthy environ.http_if_none_match with
      | some inm => some (!(false || decide (etag = inm)))
      | none => some (!false)
    | some ms =>
      match parse_date ms with
      | none => none
      | some t =>
        let unmodified : Bool := decide (last_modified ≠ 0 ∧ last_modified ≤ t)
        match truthy environ.http_if_none_match with
        | some inm => some (!(unmodified || decide (etag = inm)))
        | none => some (!unmodified)

/-- Embedding of `INVALID_PATH_PARTS` imported from `tg.support.statics`
(an external dependency of the repository):
`INVALID_PATH_PARTS = set(('..', '.')).intersection`, so the call is truthy
exactly when some segment is `'..'` or `'.'`. -/
def INVALID_PATH_PARTS (args : List String) : Bool :=
  args.any fun a => a = ".." || a = "."

/-- The header list built before the cache check (`headers = [('Etag', ...),
('Cache-Control', 'max-age=%d, public' % self.cache_max_age)]`), used as-is on
the 304 response. -/
def min_headers (etag : String) (cache_max_age : Nat) : List (String × String) :=
  [("Etag", etag), ("Cache-Control", "max-age=" ++ pyStrNat cache_max_age ++ ", public")]

/-- The header list on the success path: the minimal list extended with
Expires, Content-Type, Content-Length, Last-Modified and a repeated
Etag/Cache-Control pair. -/
def success_headers (etag : String) (cache_max_age : Nat) (now : Int)
    (content_type : String) (content_length : Nat) (last_modified : Int) :
    List (String × String) :=
  min_headers etag cache_max_age ++
    [("Expires", make_date (now + (cache_max_age : Int))),
     ("Content-Type", content_type),
     ("Content-Length", pyStrNat content_length),
     ("Last-Modified", make_date last_modified),
     ("Etag", etag),
     ("Cache-Control", "max-age=" ++ pyStrNat cache_max_age ++ ", public")]

/-- The path computation of `_default`: `_adapt_path(join(static_path, *args))`
followed by re-appending the extension recovered from
`environ['PATH_INFO'].split('.')`. -/
def resolve_filepath (static_path : String) (args : List String) (path_info : String) : String :=
  let filepath := _adapt_path (join static_path args)
  let extension := pySplitChar '.' path_info.data
  if extension.length > 1 then ⟨filepath.data ++ '.' :: (extension.getLast?.getD [])⟩
  else filepath

/-- `StaticController._default`, returning the terminal outcome together with
the trace of filesystem accesses it performed, in order.  `now` is the value
of `time.time()` used for the `Expires` header. -/
def _default (fs : FileSystem) (parse_date : String → Option Int) (static_path : String)
    (cache_max_age : Nat) (now : Int) (environ : Environ) (args : List String) :
    ResponseOutcome × List FsOp :=
  if args = [] then (.Redirect (environ.path_info ++ "index.html"), [])
  else if INVALID_PATH_PARTS args then (.NotFound, [])
  else
    let filepath := resolve_filepath static_path args environ.path_info
    match fs.getmtime filepath with
    | none => (.NotFound, [.getmtime filepath])
    | some last_modified =>
      match fs.getsize filepath with
      | none => (.NotFound, [.getmtime filepath, .getsize filepath])
      | some content_length =>
        if fs.isfile filepath then
          match has_been_modified parse_date environ
              (generate_etag last_modified content_length) last_modified with
          | none => (.BadRequest, [.getmtime filepath, .getsize filepath, .isfile filepath])
          | some false =>
            (.NotModified (min_headers (generate_etag last_modified content_length) cache_max_age),
              [.getmtime filepath, .getsize filepath, .isfile filepath])
          | some true =>
            if fs.canOpen filepath then
              (.Success (success_headers (generate_etag last_modified content_length)
                  cache_max_age now ((fs.guess_type filepath).getD "application/octet-stream")
                  content_length last_modified),
                [.getmtime filepath, .getsize filepath, .isfile filepath, .openFile filepath])
            else
              (.Forbidden,
                [.getmtime filepath, .getsize filepath, .isfile filepath, .openFile filepath])
        else (.NotFound, [.getmtime filepath, .getsize filepath, .isfile filepath])

/-- Spec-side prefix comparison (the spec's "the result is compared
case-insensitively (platform-appropriate) against the root's prefix"; on POSIX
`normcase` is the identity, so the comparison is literal):
`startsWithL pre l` is true iff `l` begins with `pre`. -/
def startsWithL : List Char → List Char → Bool
  | [], _ => true
  | _ :: _, [] => false
  | p :: ps, c :: cs => p == c && startsWithL ps cs

/-! ### Concrete request fixtures used to instantiate theorems -/

/-- A one-file filesystem: `/r/a.txt` exists with the given mtime, size 5,
is a regular readable file; nothing else exists. -/
def mkFs (lm : Int) : FileSystem :=
  { getmtime := fun p => if p = "/r/a.txt" then some lm else none
    getsize := fun p => if p = "/r/a.txt" then some 5 else none
    isfile := fun p => p = "/r/a.txt"
    canOpen := fun p => p = "/r/a.txt"
    guess_type := fun _ => some "text/plain" }

/-- A request environ for `PATH_INFO = "/s/a.txt"` with the given method and
conditional headers. -/
def mkEnv (method : String) (ims inm : Option String) : Environ :=
  { request_method := method, path_info := "/s/a.txt"
    http_if_modified_since := ims, http_if_none_match := inm }

/-- A date parser that fails on every input. -/
def pdNone : String → Option Int := fun _ => none

/-- A date parser that parses every input to the fixed timestamp `t`. -/
def pdConst (t : Int) : String → Option Int := fun _ => some t

/-! ### Small string helpers -/

/-- Characters of an appended string. -/
theorem strData_append (a b : String) : (a ++ b).data = a.data ++ b.data := by
  cases a; cases b; rfl

/-- The generated ETag starts with a double quote, hence is never the empty
string (so it is always Python-truthy). -/
theorem generate_etag_data (lm : Int) (cl : Nat) :
    (generate_etag lm cl).data = '"' :: ((pyStrInt lm).data ++ '-' :: ((pyStrNat cl).data ++ ['"'])) := by
  simp [generate_etag, strData_append]

/-- The generated ETag is nonempty. -/
theorem generate_etag_ne_empty (lm : Int) (cl : Nat) : generate_etag lm cl ≠ "" := by
  intro h
  have : (generate_etag lm cl).data = [] := by rw [h]
  rw [generate_etag_data] at this
  exact absurd this (by simp)

/-! ### Evaluation lemmas for `_default` -/

/-- Empty segment list: redirect to `PATH_INFO + "index.html"`. -/
theorem default_empty_args (fs : FileSystem) (pd : String → Option Int) (sp : String)
    (cma : Nat) (now : Int) (env : Environ) :
    _default fs pd sp cma now env [] = (.Redirect (env.path_info ++ "index.html"), []) := by
  simp [_default]

/-- A segment sequence flagged by `INVALID_PATH_PARTS` is rejected before any
filesystem access. -/
theorem default_invalid (fs : FileSystem) (pd : String → Option Int) (sp : String)
    (cma : Nat) (now : Int) (env : Environ) (args : List String)
    (h1 : args ≠ []) (h2 : INVALID_PATH_PARTS args = true) :
    _default fs pd sp cma now env args = (.NotFound, []) := by
  simp [_default, h1, h2]

/-- Failing `getmtime`: NotFound after the single stat attempt. -/
theorem default_no_mtime (fs : FileSystem) (pd : String → Option Int) (sp : String)
    (cma : Nat) (now : Int) (env : Environ) (args : List String)
    (h1 : args ≠ []) (h2 : INVALID_PATH_PARTS args = false)
    (hm : fs.getmtime (resolve_filepath sp args env.path_info) = none) :
    _default fs pd sp cma now env args =
      (.NotFound, [.getmtime (resolve_filepath sp args env.path_info)]) := by
  simp [_default, h1, h2, hm]

/-- Failing `getsize`: NotFound after the two stat attempts. -/
theorem default_no_size (fs : FileSystem) (pd : String → Option Int) (sp : String)
    (cma : Nat) (now : Int) (env : Environ) (args : List String) (lm : Int)
    (h1 : args ≠ []) (h2 : INVALID_PATH_PARTS args = false)
    (hm : fs.getmtime (resolve_filepath sp args env.path_info) = some lm)
    (hs : fs.getsize (resolve_filepath sp args env.path_info) = none) :
    _default fs pd sp cma now env args =
      (.NotFound, [.getmtime (resolve_filepath sp args env.path_info),
        .getsize (resolve_filepath sp args env.path_info)]) := by
  simp [_default, h1, h2, hm, hs]

/-- Not a regular file: NotFound after the stat calls and the `isfile` test. -/
theorem default_not_isfile (fs : FileSystem) (pd : String → Option Int) (sp : String)
    (cma : Nat) (now : Int) (env : Environ) (args : List String) (lm : Int) (cl : Nat)
    (h1 : args ≠ []) (h2 : INVALID_PATH_PARTS args = false)
    (hm : fs.getmtime (resolve_filepath sp args env.path_info) = some lm)
    (hs : fs.getsize (resolve_filepath sp args env.path_info) = some cl)
    (hf : fs.isfile (resolve_filepath sp args env.path_info) = false) :
    _default fs pd sp cma now env args =
      (.NotFound, [.getmtime (resolve_filepath sp args env.path_info),
        .getsize (resolve_filepath sp args env.path_info),
        .isfile (resolve_filepath sp args env.path_info)]) := by
  simp [_default, h1, h2, hm, hs, hf]

/-- Master evaluation lemma for a request that reaches the cache check: the
result is determined by `has_been_modified` and `canOpen`. -/
theorem default_valid (fs : FileSystem) (pd : String → Option Int) (sp : String)
    (cma : Nat) (now : Int) (env : Environ) (args : List String) (lm : Int) (cl : Nat)
    (h1 : args ≠ []) (h2 : INVALID_PATH_PARTS args = false)
    (hm : fs.getmtime (resolve_filepath sp args env.path_info) = some lm)
    (hs : fs.getsize (resolve_filepath sp args env.path_info) = some cl)
    (hf : fs.isfile (resolve_filepath sp args env.path_info) = true) :
    _default fs pd sp cma now env args =
      match has_been_modified pd env (generate_etag lm cl) lm with
      | none => (.BadRequest, [.getmtime (resolve_filepath sp args env.path_info),
          .getsize (resolve_filepath sp args env.path_info),
          .isfile (resolve_filepath sp args env.path_info)])
      | some false => (.NotModified (min_headers (generate_etag lm cl) cma),
          [.getmtime (resolve_filepath sp args env.path_info),
            .getsize (resolve_filepath sp args env.path_info),
            .isfile (resolve_filepath sp args env.path_info)])
      | some true =>
        if fs.canOpen (resolve_filepath sp args env.path_info) then
          (.Success (success_headers (generate_etag lm cl) cma now
              ((fs.guess_type (resolve_filepath sp args env.path_info)).getD
                "application/octet-stream") cl lm),
            [.getmtime (resolve_filepath sp args env.path_info),
              .getsize (resolve_filepath sp args env.path_info),
              .isfile (resolve_filepath sp args env.path_info),
              .openFile (resolve_filepath sp args env.path_info)])
        else
          (.Forbidden, [.getmtime (resolve_filepath sp args env.path_info),
            .getsize (resolve_filepath sp args env.path_info),
            .isfile (resolve_filepath sp args env.path_info),
            .openFile (resolve_filepath sp args env.path_info)]) := by
  simp [_default, h1, h2, hm, hs, hf]

/-! ### Evaluation lemmas for `has_been_modified` -/

/-- A request whose method is neither GET nor HEAD short-circuits to `false`
("not modified") without looking at any header. -/
theorem hbm_other_method (pd : String → Option Int) (env : Environ) (etag : String) (lm : Int)
    (h1 : env.request_method ≠ "GET") (h2 : env.request_method ≠ "HEAD") :
    has_been_modified pd env etag lm = some false := by
  simp [has_been_modified, h1, h2]

/-- On GET/HEAD the initial method test passes. -/
theorem method_gate (env : Environ)
    (h : env.request_method = "GET" ∨ env.request_method = "HEAD") :
    ¬(env.request_method ≠ "GET" ∧ env.request_method ≠ "HEAD") := by
  rcases h with h | h <;> simp [h]

/-- A present, non-empty, unparsable `If-Modified-Since` makes
`has_been_modified` raise (result `none`), whatever `If-None-Match` holds. -/
theorem hbm_badrequest (pd : String → Option Int) (env : Environ) (etag : String) (lm : Int)
    (s : String) (hmeth : env.request_method = "GET" ∨ env.request_method = "HEAD")
    (hims : env.http_if_modified_since = some s) (hne : s ≠ "") (hpd : pd s = none) :
    has_been_modified pd env etag lm = none := by
  simp [has_been_modified, method_gate env hmeth, truthy, hims, hne, hpd]

/-- Whether the `If-None-Match` branch of `has_been_modified` fires: the header
is Python-truthy and string-equal to the generated ETag. -/
def inmMatch (env : Environ) (etag : String) : Bool :=
  match truthy env.http_if_none_match with
  | some i => decide (etag = i)
  | none => false

/-- `truthy` characterization: a truthy value is a present non-empty value. -/
theorem truthy_eq_some (o : Option String) (s : String) :
    truthy o = some s ↔ o = some s ∧ s ≠ "" := by
  constructor
  · intro h
    cases o with
    | none => simp [truthy] at h
    | some a =>
      by_cases ha : a = ""
      · simp [truthy, ha] at h
      · simp [truthy, ha] at h
        exact ⟨by rw [h], by rw [← h]; exact ha⟩
  · rintro ⟨rfl, h2⟩
    simp [truthy, h2]

/-- For a nonempty ETag, the `If-None-Match` branch fires exactly when the
header is present and equals the ETag. -/
theorem inmMatch_eq_true (env : Environ) (etag : String) (h : etag ≠ "") :
    inmMatch env etag = true ↔ env.http_if_none_match = some etag := by
  unfold inmMatch
  rcases hinm : env.http_if_none_match with _ | i
  · simp [truthy]
  · by_cases hi : i = ""
    · subst hi
      simp [truthy]
      intro he; exact absurd he.symm h
    · simp [truthy, hi, eq_comm]

/-- If every present `If-None-Match` value is empty or differs from the ETag,
the branch does not fire. -/
theorem inmMatch_eq_false (env : Environ) (etag : String)
    (h : ∀ i, env.http_if_none_match = some i → i = "" ∨ etag ≠ i) :
    inmMatch env etag = false := by
  unfold inmMatch
  rcases hinm : env.http_if_none_match with _ | i
  · simp [truthy]
  · rcases h i hinm with hi | hi
    · simp [truthy, hi]
    · by_cases hi' : i = "" <;> simp [truthy, hi', hi]

/-- With no truthy `If-Modified-Since`, the result is just the negated
`If-None-Match` test. -/
theorem hbm_no_ims (pd : String → Option Int) (env : Environ) (etag : String) (lm : Int)
    (hmeth : env.request_method = "GET" ∨ env.request_method = "HEAD")
    (hims : truthy env.http_if_modified_since = none) :
    has_been_modified pd env etag lm = some (!inmMatch env etag) := by
  have hg := method_gate env hmeth
  unfold has_been_modified inmMatch
  rw [hims]
  rcases htr : truthy env.http_if_none_match with _ | i <;> simp [hg, htr]

/-- With a truthy, parsable `If-Modified-Since`, the result is the negated
disjunction of the timestamp test and the `If-None-Match` test. -/
theorem hbm_ims_parsed (pd : String → Option Int) (env : Environ) (etag : String) (lm : Int)
    (s : String) (t : Int)
    (hmeth : env.request_method = "GET" ∨ env.request_method = "HEAD")
    (hims : env.http_if_modified_since = some s) (hne : s ≠ "") (hpd : pd s = some t) :
    has_been_modified pd env etag lm =
      some (!(decide (lm ≠ 0 ∧ lm ≤ t) || inmMatch env etag)) := by
  have hg := method_gate env hmeth
  unfold has_been_modified inmMatch
  rw [hims]
  rcases htr : truthy env.http_if_none_match with _ | i <;>
    simp [hg, htr, truthy, hne, hpd]

/-- Unmodified via `If-Modified-Since`: nonzero mtime at most the parsed value
forces a `false` ("not modified") result, whatever `If-None-Match` holds. -/
theorem hbm_ims_unmodified (pd : String → Option Int) (env : Environ) (etag : String)
    (lm : Int) (s : String) (t : Int)
    (hmeth : env.request_method = "GET" ∨ env.request_method = "HEAD")
    (hims : env.http_if_modified_since = some s) (hne : s ≠ "") (hpd : pd s = some t)
    (hlm : lm ≠ 0) (hle : lm ≤ t) :
    has_been_modified pd env etag lm = some false := by
  rw [hbm_ims_parsed pd env etag lm s t hmeth hims hne hpd]
  simp [hlm, hle]

/-- Modified: timestamp test fails and `If-None-Match` does not fire, so the
result is `true`. -/
theorem hbm_ims_modified (pd : String → Option Int) (env : Environ) (etag : String)
    (lm : Int) (s : String) (t : Int)
    (hmeth : env.request_method = "GET" ∨ env.request_method = "HEAD")
    (hims : env.http_if_modified_since = some s) (hne : s ≠ "") (hpd : pd s = some t)
    (hun : ¬(lm ≠ 0 ∧ lm ≤ t)) (hnm : inmMatch env etag = false) :
    has_been_modified pd env etag lm = some true := by
  rw [hbm_ims_parsed pd env etag lm s t hmeth hims hne hpd]
  simp [hun, hnm]

/-- A matching nonempty `If-None-Match` alone forces `false` ("not modified"),
provided no truthy `If-Modified-Since` fails to parse. -/
theorem hbm_inm_match (pd : String → Option Int) (env : Environ) (etag : String) (lm : Int)
    (hmeth : env.request_method = "GET" ∨ env.request_method = "HEAD")
    (hinm : env.http_if_none_match = some etag) (hetag : etag ≠ "")
    (hims : ∀ s, env.http_if_modified_since = some s → s ≠ "" → (pd s).isSome = true) :
    has_been_modified pd env etag lm = some false := by
  have hmatch : inmMatch env etag = true := (inmMatch_eq_true env etag hetag).mpr hinm
  rcases htr : truthy env.http_if_modified_since with _ | s
  · rw [hbm_no_ims pd env etag lm hmeth htr, hmatch]
    rfl
  · obtain ⟨hs, hne⟩ := (truthy_eq_some _ _).mp htr
    obtain ⟨t, ht⟩ := Option.isSome_iff_exists.mp (hims s hs hne)
    rw [hbm_ims_parsed pd env etag lm s t hmeth hs hne ht, hmatch]
    simp

/-! ### Claims -/

/-- C2, counterexample: for a POST request for an otherwise cacheable resource,
`has_been_modified` returns `false` ("not modified"), refuting the claim that
it reports "modified" (returns true) unconditionally for non-GET/HEAD
methods. -/
theorem C2_counterexample :
    has_been_modified (pdConst 0) (mkEnv "POST" (some "Sun, 06 Nov 1994 08:49:37 GMT") (some "zzz"))
      "\"100-5\"" 100 = some false := by decide

/-- C2, amended: for every request whose method is neither GET nor HEAD,
`has_been_modified` returns `false` ("not modified") unconditionally,
regardless of the `If-Modified-Since` and `If-None-Match` headers, so
conditional caching is never honored for such methods (they short-circuit to
the not-modified outcome instead). -/
theorem C2_other_method_reports_unmodified (pd : String → Option Int) (env : Environ)
    (etag : String) (lm : Int)
    (h1 : env.request_method ≠ "GET") (h2 : env.request_method ≠ "HEAD") :
    has_been_modified pd env etag lm = some false := by
  simp [has_been_modified, h1, h2]

/-- C2, witness for the amended theorem at a concrete PUT request. -/
theorem C2_witness :
    has_been_modified pdNone (mkEnv "PUT" (some "x") (some "y")) "\"1-2\"" 3 = some false :=
  C2_other_method_reports_unmodified pdNone (mkEnv "PUT" (some "x") (some "y")) "\"1-2\"" 3
    (by decide) (by decide)

/-- C3, counterexample: a GET request for a valid file carrying an
`If-Modified-Since` header whose value is the empty string — which no HTTP
date parser accepts — is *not* rejected with BadRequest: the Python truthiness
test `if modified_since:` silently skips the empty value and the request
succeeds. -/
theorem C3_counterexample :
    (mkEnv "GET" (some "") none).http_if_modified_since = some "" ∧
    pdNone "" = none ∧
    (_default (mkFs 100) pdNone "/r" 3600 0 (mkEnv "GET" (some "") none) ["a"]).1.isSuccess
      = true := by decide

/-- C3, amended: for every otherwise-valid GET/HEAD file request carrying a
*non-empty* `If-Modified-Since` value that cannot be parsed as an HTTP date,
the outcome is BadRequest — a hard failure — regardless of the other
headers. -/
theorem C3_unparsable_ims_badrequest (fs : FileSystem) (pd : String → Option Int)
    (sp : String) (cma : Nat) (now : Int) (env : Environ) (args : List String)
    (lm : Int) (cl : Nat) (s : String)
    (h1 : args ≠ []) (h2 : INVALID_PATH_PARTS args = false)
    (hm : fs.getmtime (resolve_filepath sp args env.path_info) = some lm)
    (hsz : fs.getsize (resolve_filepath sp args env.path_info) = some cl)
    (hf : fs.isfile (resolve_filepath sp args env.path_info) = true)
    (hmeth : env.request_method = "GET" ∨ env.request_method = "HEAD")
    (hims : env.http_if_modified_since = some s) (hne : s ≠ "") (hpd : pd s = none) :
    (_default fs pd sp cma now env args).1 = .BadRequest := by
  have hd := default_valid fs pd sp cma now env args lm cl h1 h2 hm hsz hf
  rw [hbm_badrequest pd env (generate_etag lm cl) lm s hmeth hims hne hpd] at hd
  rw [hd]

/-- C3, witness: a GET request with `If-Modified-Since: not-a-date` on an
existing file yields BadRequest. -/
theorem C3_witness :
    (_default (mkFs 100) pdNone "/r" 3600 0 (mkEnv "GET" (some "not-a-date") none) ["a"]).1
      = .BadRequest :=
  C3_unparsable_ims_badrequest (mkFs 100) pdNone "/r" 3600 0
    (mkEnv "GET" (some "not-a-date") none) ["a"] 100 5 "not-a-date"
    (by decide) (by decide) (by decide) (by decide) (by decide)
    (Or.inl (by decide)) (by decide) (by decide) (by decide)

/-- C4: a segment sequence containing a `..` component, in any position, is
rejected with NotFound and the filesystem-access trace is empty (the
`INVALID_PATH_PARTS` test runs before any stat or open). -/
theorem C4_dotdot_no_fs_access (fs : FileSystem) (pd : String → Option Int) (sp : String)
    (cma : Nat) (now : Int) (env : Environ) (args : List String) (h : ".." ∈ args) :
    _default fs pd sp cma now env args = (.NotFound, []) := by
  have h1 : args ≠ [] := by rintro rfl; simp at h
  have h2 : INVALID_PATH_PARTS args = true := by
    simp only [INVALID_PATH_PARTS, List.any_eq_true]
    exact ⟨"..", h, by simp⟩
  exact default_invalid fs pd sp cma now env args h1 h2

/-- C4, witness at the spec's own example `["..", "..", "etc", "passwd"]`. -/
theorem C4_witness :
    _default (mkFs 100) pdNone "/r" 3600 0 (mkEnv "GET" none none)
      ["..", "..", "etc", "passwd"] = (.NotFound, []) :=
  C4_dotdot_no_fs_access (mkFs 100) pdNone "/r" 3600 0 (mkEnv "GET" none none)
    ["..", "..", "etc", "passwd"] (by decide)

/-- C5, counterexample, refuting both universally quantified directions of the
claim: (a) for a valid file whose last-modified time is exactly 0, a GET with
`If-Modified-Since` parsing to 100 ≥ 0 yields Success, not NotModified (the
Python truthiness test `if last_modified` drops the comparison); (b) with
`If-Modified-Since` parsing to 10, strictly before mtime 50, but a matching
`If-None-Match`, the outcome is NotModified, not Success. -/
theorem C5_counterexample :
    ((0 : Int) ≤ 100 ∧
      (_default (mkFs 0) (pdConst 100) "/r" 3600 0 (mkEnv "GET" (some "d") none) ["a"]).1.isSuccess
        = true) ∧
    ((10 : Int) < 50 ∧
      (_default (mkFs 50) (pdConst 10) "/r" 3600 0
        (mkEnv "GET" (some "d") (some "\"50-5\"")) ["a"]).1.isNotModified = true) := by
  decide

/-- C5, amended: for a valid file with *nonzero* last-modified time and a
GET/HEAD request with a well-formed non-empty `If-Modified-Since`: a parsed
timestamp ≥ the mtime yields NotModified; a parsed timestamp strictly before
the mtime yields Success, provided additionally that no present
`If-None-Match` matches the ETag (which would force NotModified by itself)
and the file can be opened. -/
theorem C5_conditional_get (fs : FileSystem) (pd : String → Option Int) (sp : String)
    (cma : Nat) (now : Int) (env : Environ) (args : List String)
    (lm : Int) (cl : Nat) (s : String) (t : Int)
    (h1 : args ≠ []) (h2 : INVALID_PATH_PARTS args = false)
    (hm : fs.getmtime (resolve_filepath sp args env.path_info) = some lm)
    (hsz : fs.getsize (resolve_filepath sp args env.path_info) = some cl)
    (hf : fs.isfile (resolve_filepath sp args env.path_info) = true)
    (hmeth : env.request_method = "GET" ∨ env.request_method = "HEAD")
    (hlm : lm ≠ 0)
    (hims : env.http_if_modified_since = some s) (hne : s ≠ "") (hpd : pd s = some t) :
    (lm ≤ t → (_default fs pd sp cma now env args).1.isNotModified = true) ∧
    (t < lm →
      (∀ i, env.http_if_none_match = some i → i = "" ∨ generate_etag lm cl ≠ i) →
      fs.canOpen (resolve_filepath sp args env.path_info) = true →
      (_default fs pd sp cma now env args).1.isSuccess = true) := by
  have hd := default_valid fs pd sp cma now env args lm cl h1 h2 hm hsz hf
  constructor
  · intro hle
    rw [hbm_ims_unmodified pd env (generate_etag lm cl) lm s t hmeth hims hne hpd hlm hle] at hd
    rw [hd]
    rfl
  · intro hlt hnm hopen
    have hun : ¬(lm ≠ 0 ∧ lm ≤ t) := fun hc => absurd hc.2 (not_le.mpr hlt)
    rw [hbm_ims_modified pd env (generate_etag lm cl) lm s t hmeth hims hne hpd hun
      (inmMatch_eq_false env (generate_etag lm cl) hnm)] at hd
    rw [hd]
    simp [hopen, ResponseOutcome.isSuccess]

/-- C5, witness for the amended theorem: mtime 100, parsed value 100 gives
NotModified; in a second application, parsed value 99 gives Success. -/
theorem C5_witness :
    ((_default (mkFs 100) (pdConst 100) "/r" 3600 0 (mkEnv "GET" (some "d") none) ["a"]).1.isNotModified
      = true) ∧
    ((_default (mkFs 100) (pdConst 99) "/r" 3600 0 (mkEnv "GET" (some "d") none) ["a"]).1.isSuccess
      = true) :=
  ⟨(C5_conditional_get (mkFs 100) (pdConst 100) "/r" 3600 0 (mkEnv "GET" (some "d") none)
      ["a"] 100 5 "d" 100 (by decide) (by decide) (by decide) (by decide) (by decide)
      (Or.inl (by decide)) (by decide) (by decide) (by decide) (by decide)).1 (by decide),
   (C5_conditional_get (mkFs 100) (pdConst 99) "/r" 3600 0 (mkEnv "GET" (some "d") none)
      ["a"] 100 5 "d" 99 (by decide) (by decide) (by decide) (by decide) (by decide)
      (Or.inl (by decide)) (by decide) (by decide) (by decide) (by decide)).2 (by decide)
     (by intro i hi; simp [mkEnv] at hi) (by decide)⟩

/-- C6: for a valid-file GET/HEAD request whose `If-None-Match` exactly equals
the generated ETag, with any present `If-Modified-Since` either empty or
well-formed, the outcome is NotModified with the minimal header list — the
ETag match alone suffices, whatever the timestamp comparison would say. -/
theorem C6_inm_match_not_modified (fs : FileSystem) (pd : String → Option Int) (sp : String)
    (cma : Nat) (now : Int) (env : Environ) (args : List String) (lm : Int) (cl : Nat)
    (h1 : args ≠ []) (h2 : INVALID_PATH_PARTS args = false)
    (hm : fs.getmtime (resolve_filepath sp args env.path_info) = some lm)
    (hsz : fs.getsize (resolve_filepath sp args env.path_info) = some cl)
    (hf : fs.isfile (resolve_filepath sp args env.path_info) = true)
    (hmeth : env.request_method = "GET" ∨ env.request_method = "HEAD")
    (hinm : env.http_if_none_match = some (generate_etag lm cl))
    (hims : ∀ s, env.http_if_modified_since = some s → s ≠ "" → (pd s).isSome = true) :
    (_default fs pd sp cma now env args).1 =
      .NotModified (min_headers (generate_etag lm cl) cma) := by
  have hd := default_valid fs pd sp cma now env args lm cl h1 h2 hm hsz hf
  rw [hbm_inm_match pd env (generate_etag lm cl) lm hmeth hinm
    (generate_etag_ne_empty lm cl) hims] at hd
  rw [hd]

/-- C6, witness: the `If-Modified-Since` comparison (parsed value 0 < mtime
100) would say "modified", yet the matching ETag forces NotModified. -/
theorem C6_witness :
    (_default (mkFs 100) (pdConst 0) "/r" 3600 0
      (mkEnv "GET" (some "d") (some "\"100-5\"")) ["a"]).1 =
      .NotModified (min_headers (generate_etag 100 5) 3600) :=
  C6_inm_match_not_modified (mkFs 100) (pdConst 0) "/r" 3600 0
    (mkEnv "GET" (some "d") (some "\"100-5\"")) ["a"] 100 5
    (by decide) (by decide) (by decide) (by decide) (by decide)
    (Or.inl (by decide)) (by decide) (by intro s hs hne; rfl)

/-- C9: a request whose method is neither GET nor HEAD, resolving to an
existing regular file, returns NotModified with only the minimal
Etag/Cache-Control headers, and the access trace contains no file open. -/
theorem C9_other_method_not_modified (fs : FileSystem) (pd : String → Option Int)
    (sp : String) (cma : Nat) (now : Int) (env : Environ) (args : List String)
    (lm : Int) (cl : Nat)
    (h1 : args ≠ []) (h2 : INVALID_PATH_PARTS args = false)
    (hm : fs.getmtime (resolve_filepath sp args env.path_info) = some lm)
    (hsz : fs.getsize (resolve_filepath sp args env.path_info) = some cl)
    (hf : fs.isfile (resolve_filepath sp args env.path_info) = true)
    (hA : env.request_method ≠ "GET") (hB : env.request_method ≠ "HEAD") :
    _default fs pd sp cma now env args =
      (.NotModified (min_headers (generate_etag lm cl) cma),
        [.getmtime (resolve_filepath sp args env.path_info),
          .getsize (resolve_filepath sp args env.path_info),
          .isfile (resolve_filepath sp args env.path_info)]) ∧
    ∀ p, FsOp.openFile p ∉ (_default fs pd sp cma now env args).2 := by
  have hd := default_valid fs pd sp cma now env args lm cl h1 h2 hm hsz hf
  rw [hbm_other_method pd env (generate_etag lm cl) lm hA hB] at hd
  refine ⟨hd, ?_⟩
  rw [hd]
  intro p
  simp

/-- C9, witness: a POST for an existing file gets the minimal 304 and no open
appears in the trace. -/
theorem C9_witness :
    _default (mkFs 100) pdNone "/r" 3600 0 (mkEnv "POST" none none) ["a"] =
      (.NotModified (min_headers (generate_etag 100 5) 3600),
        [.getmtime "/r/a.txt", .getsize "/r/a.txt", .isfile "/r/a.txt"]) ∧
    ∀ p, FsOp.openFile p ∉
      (_default (mkFs 100) pdNone "/r" 3600 0 (mkEnv "POST" none none) ["a"]).2 :=
  C9_other_method_not_modified (mkFs 100) pdNone "/r" 3600 0 (mkEnv "POST" none none)
    ["a"] 100 5 (by decide) (by decide) (by decide) (by decide) (by decide)
    (by decide) (by decide)

/-- C10: for a valid file whose last-modified timestamp is exactly 0 (falsy in
Python), a GET/HEAD request with a present, well-formed `If-Modified-Since`
yields NotModified exactly when `If-None-Match` equals the generated ETag —
the timestamp comparison can never set `unmodified`, whatever its parsed
value. -/
theorem C10_zero_mtime_ims_ignored (fs : FileSystem) (pd : String → Option Int)
    (sp : String) (cma : Nat) (now : Int) (env : Environ) (args : List String)
    (cl : Nat) (s : String) (t : Int)
    (h1 : args ≠ []) (h2 : INVALID_PATH_PARTS args = false)
    (hm : fs.getmtime (resolve_filepath sp args env.path_info) = some 0)
    (hsz : fs.getsize (resolve_filepath sp args env.path_info) = some cl)
    (hf : fs.isfile (resolve_filepath sp args env.path_info) = true)
    (hmeth : env.request_method = "GET" ∨ env.request_method = "HEAD")
    (hims : env.http_if_modified_since = some s) (hne : s ≠ "") (hpd : pd s = some t) :
    ((_default fs pd sp cma now env args).1.isNotModified = true ↔
      env.http_if_none_match = some (generate_etag 0 cl)) := by
  have hd := default_valid fs pd sp cma now env args 0 cl h1 h2 hm hsz hf
  have h3 := hbm_ims_parsed pd env (generate_etag 0 cl) 0 s t hmeth hims hne hpd
  have hdec : (decide ((0 : Int) ≠ 0 ∧ (0 : Int) ≤ t)) = false := by simp
  rw [hdec, Bool.false_or] at h3
  cases hMatch : inmMatch env (generate_etag 0 cl) with
  | false =>
    rw [hMatch] at h3
    rw [h3] at hd
    constructor
    · intro habs
      exfalso
      rw [hd] at habs
      by_cases ho : fs.canOpen (resolve_filepath sp args env.path_info) = true <;>
        simp [ho, ResponseOutcome.isNotModified] at habs
    · intro hinm
      exact absurd ((inmMatch_eq_true env (generate_etag 0 cl)
        (generate_etag_ne_empty 0 cl)).mpr hinm) (by rw [hMatch]; exact Bool.false_ne_true)
  | true =>
    rw [hMatch] at h3
    rw [h3] at hd
    rw [hd]
    simp [ResponseOutcome.isNotModified]
    exact (inmMatch_eq_true env (generate_etag 0 cl) (generate_etag_ne_empty 0 cl)).mp hMatch

/-- C10, witness: mtime 0, `If-Modified-Since` parsing to 100: without
`If-None-Match` the request is not NotModified; restated through the theorem
at a concrete input. -/
theorem C10_witness :
    ((_default (mkFs 0) (pdConst 100) "/r" 3600 0 (mkEnv "GET" (some "d") none) ["a"]).1.isNotModified
        = true ↔
      (mkEnv "GET" (some "d") none).http_if_none_match = some (generate_etag 0 5)) :=
  C10_zero_mtime_ims_ignored (mkFs 0) (pdConst 100) "/r" 3600 0
    (mkEnv "GET" (some "d") none) ["a"] 5 "d" 100
    (by decide) (by decide) (by decide) (by decide) (by decide)
    (Or.inl (by decide)) (by decide) (by decide) (by decide)

/-- Keys of the minimal header list, in order. -/
theorem min_headers_keys (etag : String) (cma : Nat) :
    (min_headers etag cma).map Prod.fst = ["Etag", "Cache-Control"] := rfl

/-- Keys of the success header list, in order. -/
theorem success_headers_keys (etag : String) (cma : Nat) (now : Int) (ct : String)
    (cl : Nat) (lm : Int) :
    (success_headers etag cma now ct cl lm).map Prod.fst =
      ["Etag", "Cache-Control", "Expires", "Content-Type", "Content-Length",
        "Last-Modified", "Etag", "Cache-Control"] := rfl

/-- Exhaustive classification of `_default` results: every run terminates in
one of the six outcomes, and the header-carrying outcomes always carry exactly
the minimal list (304) or the extended list (200). -/
theorem default_shape (fs : FileSystem) (pd : String → Option Int) (sp : String)
    (cma : Nat) (now : Int) (env : Environ) (args : List String) :
    (∃ loc ops, _default fs pd sp cma now env args = (.Redirect loc, ops)) ∨
    (∃ ops, _default fs pd sp cma now env args = (.NotFound, ops)) ∨
    (∃ ops, _default fs pd sp cma now env args = (.BadRequest, ops)) ∨
    (∃ ops, _default fs pd sp cma now env args = (.Forbidden, ops)) ∨
    (∃ etag ops, _default fs pd sp cma now env args = (.NotModified (min_headers etag cma), ops)) ∨
    (∃ etag ct cl lm ops, _default fs pd sp cma now env args =
      (.Success (success_headers etag cma now ct cl lm), ops)) := by
  by_cases h1 : args = []
  · subst h1
    exact Or.inl ⟨_, _, default_empty_args fs pd sp cma now env⟩
  cases hI : INVALID_PATH_PARTS args with
  | true => exact Or.inr (Or.inl ⟨_, default_invalid fs pd sp cma now env args h1 hI⟩)
  | false =>
  cases hm : fs.getmtime (resolve_filepath sp args env.path_info) with
  | none => exact Or.inr (Or.inl ⟨_, default_no_mtime fs pd sp cma now env args h1 hI hm⟩)
  | some lm =>
  cases hsz : fs.getsize (resolve_filepath sp args env.path_info) with
  | none => exact Or.inr (Or.inl ⟨_, default_no_size fs pd sp cma now env args lm h1 hI hm hsz⟩)
  | some cl =>
  cases hf : fs.isfile (resolve_filepath sp args env.path_info) with
  | false =>
    exact Or.inr (Or.inl ⟨_, default_not_isfile fs pd sp cma now env args lm cl h1 hI hm hsz hf⟩)
  | true =>
  have hd := default_valid fs pd sp cma now env args lm cl h1 hI hm hsz hf
  rcases hb : has_been_modified pd env (generate_etag lm cl) lm with _ | b
  · rw [hb] at hd
    exact Or.inr (Or.inr (Or.inl ⟨_, hd⟩))
  · rw [hb] at hd
    cases b with
    | false => exact Or.inr (Or.inr (Or.inr (Or.inr (Or.inl ⟨_, _, hd⟩))))
    | true =>
      cases ho : fs.canOpen (resolve_filepath sp args env.path_info) with
      | false =>
        rw [ho] at hd
        exact Or.inr (Or.inr (Or.inr (Or.inl ⟨_, hd⟩)))
      | true =>
        rw [ho] at hd
        exact Or.inr (Or.inr (Or.inr (Or.inr (Or.inr ⟨_, _, _, _, _, hd⟩))))

/-- C8: on every Success response the header list's keys are exactly, in
order, Etag, Cache-Control, Expires, Content-Type, Content-Length,
Last-Modified, Etag, Cache-Control (Etag and Cache-Control appearing twice);
on every NotModified response they are exactly Etag, Cache-Control. -/
theorem C8_header_order (fs : FileSystem) (pd : String → Option Int) (sp : String)
    (cma : Nat) (now : Int) (env : Environ) (args : List String) :
    (∀ hs ops, _default fs pd sp cma now env args = (.Success hs, ops) →
      hs.map Prod.fst = ["Etag", "Cache-Control", "Expires", "Content-Type",
        "Content-Length", "Last-Modified", "Etag", "Cache-Control"]) ∧
    (∀ hs ops, _default fs pd sp cma now env args = (.NotModified hs, ops) →
      hs.map Prod.fst = ["Etag", "Cache-Control"]) := by
  constructor
  · intro hs ops h
    rcases default_shape fs pd sp cma now env args with
      ⟨loc, ops', hq⟩ | ⟨ops', hq⟩ | ⟨ops', hq⟩ | ⟨ops', hq⟩ | ⟨etag, ops', hq⟩ |
      ⟨etag, ct, cl, lm, ops', hq⟩ <;> rw [hq] at h
    · injection h with hA hB; exact ResponseOutcome.noConfusion hA
    · injection h with hA hB; exact ResponseOutcome.noConfusion hA
    · injection h with hA hB; exact ResponseOutcome.noConfusion hA
    · injection h with hA hB; exact ResponseOutcome.noConfusion hA
    · injection h with hA hB; exact ResponseOutcome.noConfusion hA
    · injection h with hA hB
      injection hA with hA
      rw [← hA]
      exact success_headers_keys etag cma now ct cl lm
  · intro hs ops h
    rcases default_shape fs pd sp cma now env args with
      ⟨loc, ops', hq⟩ | ⟨ops', hq⟩ | ⟨ops', hq⟩ | ⟨ops', hq⟩ | ⟨etag, ops', hq⟩ |
      ⟨etag, ct, cl, lm, ops', hq⟩ <;> rw [hq] at h
    · injection h with hA hB; exact ResponseOutcome.noConfusion hA
    · injection h with hA hB; exact ResponseOutcome.noConfusion hA
    · injection h with hA hB; exact ResponseOutcome.noConfusion hA
    · injection h with hA hB; exact ResponseOutcome.noConfusion hA
    · injection h with hA hB
      injection hA with hA
      rw [← hA]
      exact min_headers_keys etag cma
    · injection h with hA hB; exact ResponseOutcome.noConfusion hA

/-- C8, witness: a concrete successful GET and a concrete 304 for a POST,
with the literal header lists produced, run through the theorem. -/
theorem C8_witness :
    ([("Etag", "\"100-5\""), ("Cache-Control", "max-age=3600, public"),
      ("Expires", "Thu, 01 Jan 1970 01:00:00 GMT"), ("Content-Type", "text/plain"),
      ("Content-Length", "5"), ("Last-Modified", "Thu, 01 Jan 1970 00:01:40 GMT"),
      ("Etag", "\"100-5\""), ("Cache-Control", "max-age=3600, public")]
        : List (String × String)).map Prod.fst =
      ["Etag", "Cache-Control", "Expires", "Content-Type", "Content-Length",
        "Last-Modified", "Etag", "Cache-Control"] ∧
    ([("Etag", "\"100-5\""), ("Cache-Control", "max-age=3600, public")]
        : List (String × String)).map Prod.fst = ["Etag", "Cache-Control"] :=
  ⟨(C8_header_order (mkFs 100) pdNone "/r" 3600 0 (mkEnv "GET" none none) ["a"]).1
      [("Etag", "\"100-5\""), ("Cache-Control", "max-age=3600, public"),
        ("Expires", "Thu, 01 Jan 1970 01:00:00 GMT"), ("Content-Type", "text/plain"),
        ("Content-Length", "5"), ("Last-Modified", "Thu, 01 Jan 1970 00:01:40 GMT"),
        ("Etag", "\"100-5\""), ("Cache-Control", "max-age=3600, public")]
      [.getmtime "/r/a.txt", .getsize "/r/a.txt", .isfile "/r/a.txt", .openFile "/r/a.txt"]
      (by decide),
   (C8_header_order (mkFs 100) pdNone "/r" 3600 0 (mkEnv "POST" none none) ["a"]).2
      [("Etag", "\"100-5\""), ("Cache-Control", "max-age=3600, public")]
      [.getmtime "/r/a.txt", .getsize "/r/a.txt", .isfile "/r/a.txt"]
      (by decide)⟩

/-! ### Decimal representation: correctness of the `str()` embedding -/

/-- The numeric value read back from a digit list (decimal, most significant
first). -/
def digitsVal (l : List Char) : Nat := l.foldl (fun a c => 10 * a + (c.toNat - 48)) 0

/-- A digit character is never the minus sign. -/
theorem digitCh_ne_dash (n : Nat) : digitCh n ≠ '-' := by
  rcases n with _ | _ | _ | _ | _ | _ | _ | _ | _ | m <;>
    first
    | decide
    | exact fun h => absurd h (show ¬('9' : Char) = '-' by decide)

/-- A digit character is never a double quote. -/
theorem digitCh_ne_quote (n : Nat) : digitCh n ≠ '"' := by
  rcases n with _ | _ | _ | _ | _ | _ | _ | _ | _ | m <;>
    first
    | decide
    | exact fun h => absurd h (show ¬('9' : Char) = '"' by decide)

/-- Reading back a single digit. -/
theorem digitCh_toNat : ∀ d < 10, (digitCh d).toNat - 48 = d := by decide

/-- `digitsVal` of a snoc. -/
theorem digitsVal_append_singleton (l : List Char) (c : Char) :
    digitsVal (l ++ [c]) = 10 * digitsVal l + (c.toNat - 48) := by
  simp [digitsVal, List.foldl_append]

/-- With sufficient fuel, the digit expansion evaluates back to its input. -/
theorem digitsVal_natCharsAux : ∀ f n : Nat, n < 10 ^ f → digitsVal (natCharsAux f n) = n := by
  intro f
  induction f with
  | zero =>
    intro n h
    have h0 : n = 0 := Nat.lt_one_iff.mp (by simpa using h)
    subst h0
    rfl
  | succ f ih =>
    intro n h
    by_cases h10 : n < 10
    · rw [natCharsAux, if_pos h10]
      have := digitCh_toNat n h10
      simp [digitsVal, List.foldl, this]
    · rw [natCharsAux, if_neg h10, digitsVal_append_singleton,
        ih (n / 10) ((Nat.div_lt_iff_lt_mul (by norm_num)).mpr (by
          rw [← pow_succ]
          exact h)),
        digitCh_toNat (n % 10) (Nat.mod_lt n (by norm_num))]
      exact Nat.div_add_mod n 10

/-- The digit expansion is nonempty whenever there is fuel. -/
theorem natCharsAux_ne_nil (f n : Nat) (h : 0 < f) : natCharsAux f n ≠ [] := by
  cases f with
  | zero => exact absurd h (by simp)
  | succ f =>
    rw [natCharsAux]
    split
    · simp
    · simp

/-- Every character of the digit expansion is a digit character. -/
theorem natCharsAux_digits : ∀ f n c, c ∈ natCharsAux f n → ∃ d, d < 10 ∧ c = digitCh d := by
  intro f
  induction f with
  | zero => intro n c h; simp [natCharsAux] at h
  | succ f ih =>
    intro n c h
    rw [natCharsAux] at h
    by_cases h10 : n < 10
    · rw [if_pos h10] at h
      simp at h
      exact ⟨n, h10, h⟩
    · rw [if_neg h10] at h
      rcases List.mem_append.mp h with h' | h'
      · exact ih (n / 10) c h'
      · simp at h'
        exact ⟨n % 10, Nat.mod_lt n (by norm_num), h'⟩

/-- Fuel `n + 1` suffices for `n`. -/
theorem lt_ten_pow_succ (n : Nat) : n < 10 ^ (n + 1) :=
  lt_of_lt_of_le (Nat.lt_pow_self (by norm_num) n)
    (Nat.pow_le_pow_right (by norm_num) (Nat.le_succ n))

/-- `natChars` evaluates back to its input. -/
theorem digitsVal_natChars (n : Nat) : digitsVal (natChars n) = n :=
  digitsVal_natCharsAux (n + 1) n (lt_ten_pow_succ n)

/-- `natChars` is injective (Python `str()` of distinct naturals differs). -/
theorem natChars_inj {m n : Nat} (h : natChars m = natChars n) : m = n := by
  have := congrArg digitsVal h
  rwa [digitsVal_natChars, digitsVal_natChars] at this

/-- `natChars` is nonempty. -/
theorem natChars_ne_nil (n : Nat) : natChars n ≠ [] :=
  natCharsAux_ne_nil (n + 1) n (Nat.succ_pos n)

/-- No minus sign occurs among the digits of a natural number. -/
theorem natChars_no_dash (n : Nat) : '-' ∉ natChars n := by
  intro h
  obtain ⟨d, _, hd⟩ := natCharsAux_digits (n + 1) n '-' h
  exact digitCh_ne_dash d hd.symm

/-- The character data of `pyStrInt`. -/
theorem pyStrInt_data (i : Int) :
    (pyStrInt i).data = if i < 0 then '-' :: natChars i.natAbs else natChars i.natAbs := by
  unfold pyStrInt
  split <;> rfl

/-- The character list of Python `str()` of an integer is injective. -/
theorem pyStrInt_data_inj {i j : Int} (h : (pyStrInt i).data = (pyStrInt j).data) : i = j := by
  rw [pyStrInt_data, pyStrInt_data] at h
  by_cases hi : i < 0 <;> by_cases hj : j < 0
  · rw [if_pos hi, if_pos hj] at h
    have habs : i.natAbs = j.natAbs := natChars_inj (List.cons_injective h)
    omega
  · rw [if_pos hi, if_neg hj] at h
    exfalso
    apply natChars_no_dash j.natAbs
    rw [← h]
    exact List.mem_cons_self _ _
  · rw [if_neg hi, if_pos hj] at h
    exfalso
    apply natChars_no_dash i.natAbs
    rw [h]
    exact List.mem_cons_self _ _
  · rw [if_neg hi, if_neg hj] at h
    have habs : i.natAbs = j.natAbs := natChars_inj h
    omega

/-- Unique decomposition at a separator that occurs in neither left part. -/
theorem sep_split_unique :
    ∀ x1 y1 x2 y2 : List Char, '-' ∉ x1 → '-' ∉ x2 →
      x1 ++ '-' :: y1 = x2 ++ '-' :: y2 → x1 = x2 ∧ y1 = y2 := by
  intro x1
  induction x1 with
  | nil =>
    intro y1 x2 y2 _ h2 h
    cases x2 with
    | nil => simpa using h
    | cons c t =>
      exfalso
      apply h2
      have hc : c = '-' := by
        have := congrArg List.head? h
        simpa using this.symm
      rw [hc]
      exact List.mem_cons_self _ _
  | cons c t ih =>
    intro y1 x2 y2 h1 h2 h
    cases x2 with
    | nil =>
      exfalso
      apply h1
      have hc : c = '-' := by
        have := congrArg List.head? h
        simpa using this
      rw [hc]
      exact List.mem_cons_self _ _
    | cons d u =>
      simp only [List.cons_append, List.cons.injEq] at h
      obtain ⟨hcd, htu⟩ := h
      have := ih y1 u y2 (fun hm => h1 (List.mem_cons_of_mem _ hm))
        (fun hm => h2 (List.mem_cons_of_mem _ hm)) htu
      exact ⟨by rw [hcd, this.1], this.2⟩

/-- C7: ETag generation is a pure deterministic function of
`(last_modified, content_length)`: it returns the double-quoted
`"<last_modified>-<content_length>"` string, equal pairs give equal ETags, and
distinct pairs give distinct ETags (changing either input changes the
result). -/
theorem C7_etag_pure_injective :
    (∀ (lm : Int) (cl : Nat),
      generate_etag lm cl = "\"" ++ pyStrInt lm ++ "-" ++ pyStrNat cl ++ "\"") ∧
    (∀ (lm lm' : Int) (cl cl' : Nat),
      generate_etag lm cl = generate_etag lm' cl' ↔ (lm = lm' ∧ cl = cl')) := by
  constructor
  · intro lm cl
    rfl
  · intro lm lm' cl cl'
    constructor
    · intro h
      have hd : (generate_etag lm cl).data = (generate_etag lm' cl').data := by rw [h]
      rw [generate_etag_data, generate_etag_data] at hd
      have hx := List.cons_injective hd
      have hrev := congrArg List.reverse hx
      simp only [List.reverse_append, List.reverse_cons, List.reverse_nil,
        List.nil_append, List.append_assoc, List.cons_append] at hrev
      have hsep := sep_split_unique ((pyStrNat cl).data.reverse)
        ((pyStrInt lm).data.reverse) ((pyStrNat cl').data.reverse)
        ((pyStrInt lm').data.reverse)
        (fun hm => natChars_no_dash cl (List.mem_reverse.mp hm))
        (fun hm => natChars_no_dash cl' (List.mem_reverse.mp hm))
        (by
          have := List.cons_injective hrev
          simpa using this)
      refine ⟨pyStrInt_data_inj (List.reverse_injective hsep.2), ?_⟩
      exact natChars_inj (List.reverse_injective hsep.1)
    · rintro ⟨rfl, rfl⟩
      rfl

/-- C7, witness: the iff of the theorem applied at concrete distinct inputs. -/
theorem C7_witness :
    (generate_etag 100 5 = generate_etag 100 5 ↔ ((100 : Int) = 100 ∧ (5 : Nat) = 5)) ∧
    (generate_etag (-15) 7 = generate_etag 2 9 ↔ ((-15 : Int) = 2 ∧ (7 : Nat) = 9)) :=
  ⟨C7_etag_pure_injective.2 100 100 5 5, C7_etag_pure_injective.2 (-15) 2 7 9⟩

/-! ### Path resolution: the root-prefix property -/

/-- Components acceptable inside a joined path: no separator and not a `.` or
`..` component (the empty component standing for doubled slashes is allowed). -/
@[reducible]
def okComp (c : List Char) : Prop := '/' ∉ c ∧ c ≠ ['.'] ∧ c ≠ ['.', '.']

/-- `joinSlash` on a two-or-more–element list. -/
theorem joinSlash_cons₂ (c d : List Char) (t : List (List Char)) :
    joinSlash (c :: d :: t) = c ++ '/' :: joinSlash (d :: t) := rfl

/-- `joinSlash` on a cons with nonempty tail. -/
theorem joinSlash_cons_of_ne_nil (c : List Char) {cs : List (List Char)} (h : cs ≠ []) :
    joinSlash (c :: cs) = c ++ '/' :: joinSlash cs := by
  cases cs with
  | nil => exact absurd rfl h
  | cons d t => rfl

/-- `joinSlash` distributes over append of nonempty lists. -/
theorem joinSlash_append (xs ys : List (List Char)) (hx : xs ≠ []) (hy : ys ≠ []) :
    joinSlash (xs ++ ys) = joinSlash xs ++ '/' :: joinSlash ys := by
  induction xs with
  | nil => exact absurd rfl hx
  | cons x xs ih =>
    cases xs with
    | nil => simpa using joinSlash_cons_of_ne_nil x hy
    | cons x2 t =>
      rw [List.cons_append, joinSlash_cons_of_ne_nil x (by simp), joinSlash_cons₂,
        ih (by simp)]
      simp

/-- Splitting a separator-free string gives a single component. -/
theorem pySplitChar_no_sep {c : List Char} (h : '/' ∉ c) : pySplitChar '/' c = [c] := by
  induction c with
  | nil => rfl
  | cons d t ih =>
    have hd : d ≠ '/' := fun hh => h (hh ▸ List.mem_cons_self _ _)
    rw [pySplitChar, if_neg hd, ih (fun hm => h (List.mem_cons_of_mem _ hm))]

/-- Splitting at a separator after a separator-free head. -/
theorem pySplitChar_append_sep {x : List Char} (y : List Char) (h : '/' ∉ x) :
    pySplitChar '/' (x ++ '/' :: y) = x :: pySplitChar '/' y := by
  induction x with
  | nil => rw [List.nil_append, pySplitChar, if_pos rfl]
  | cons d t ih =>
    have hd : d ≠ '/' := fun hh => h (hh ▸ List.mem_cons_self _ _)
    rw [List.cons_append, pySplitChar, if_neg hd, ih (fun hm => h (List.mem_cons_of_mem _ hm))]

/-- Splitting inverts `joinSlash` on separator-free components. -/
theorem pySplitChar_joinSlash {comps : List (List Char)} (h1 : comps ≠ [])
    (h2 : ∀ c ∈ comps, '/' ∉ c) : pySplitChar '/' (joinSlash comps) = comps := by
  induction comps with
  | nil => exact absurd rfl h1
  | cons c cs ih =>
    cases cs with
    | nil => exact pySplitChar_no_sep (h2 c (List.mem_cons_self _ _))
    | cons d t =>
      rw [joinSlash_cons₂, pySplitChar_append_sep _ (h2 c (List.mem_cons_self _ _)),
        ih (by simp) (fun x hx => h2 x (List.mem_cons_of_mem _ hx))]

/-- A root-anchored joined path ends in `'/'` iff its last component is the
empty component. -/
theorem path_endswith (pcomps : List (List Char)) (h1 : pcomps ≠ [])
    (hsep : ∀ c ∈ pcomps, '/' ∉ c) :
    (('/' :: joinSlash pcomps).getLast? = some '/' ↔ pcomps.getLast? = some []) := by
  obtain ⟨init, last, rfl⟩ : ∃ init last, pcomps = init ++ [last] :=
    ⟨pcomps.dropLast, pcomps.getLast h1, (List.dropLast_append_getLast h1).symm⟩
  have key : ('/' :: joinSlash (init ++ [last])).getLast? = ('/' :: last).getLast? := by
    cases init with
    | nil => simp [joinSlash]
    | cons i it =>
      rw [joinSlash_append (i :: it) [last] (by simp) (by simp),
        show ('/' :: (joinSlash (i :: it) ++ '/' :: joinSlash [last])) =
          ('/' :: joinSlash (i :: it)) ++ '/' :: joinSlash [last] from rfl,
        List.getLast?_append_cons]
      rfl
  rw [key, List.getLast?_concat]
  cases last with
  | nil => simp
  | cons c t =>
    rw [List.getLast?_cons_cons, @List.getLast?_eq_getLast_of_ne_nil _ (c :: t) (by simp)]
    have hmem : (c :: t).getLast (by simp) ∈ c :: t := List.getLast_mem _
    have hneq : (c :: t).getLast (by simp) ≠ '/' :=
      fun hh => (hsep (c :: t) (by simp)) (hh ▸ hmem)
    simp [hneq]

/-- Invariant of the `posixpath.join` fold: starting from a root-anchored path
whose components extend the root components `rcomps` by acceptable extras,
folding acceptable (separator-free, non-dot) segments stays root-anchored with
acceptable extras. -/
theorem pyJoin_inv (rcomps : List (List Char)) (hrne : rcomps ≠ [])
    (hrgood : ∀ c ∈ rcomps, c ≠ [] ∧ okComp c) (bs : List (List Char)) :
    ∀ e : List (List Char), (∀ c ∈ e, okComp c) → (∀ b ∈ bs, okComp b) →
      ∃ e', (∀ c ∈ e', okComp c) ∧
        List.foldl joinStep ('/' :: joinSlash (rcomps ++ e)) bs =
          '/' :: joinSlash (rcomps ++ e') := by
  induction bs with
  | nil => exact fun e he _ => ⟨e, he, rfl⟩
  | cons b bs ih =>
    intro e he hb
    have hpne : rcomps ++ e ≠ [] := fun h => hrne (List.append_eq_nil.mp h).1
    have hpsep : ∀ c ∈ rcomps ++ e, '/' ∉ c := by
      intro c hc
      rcases List.mem_append.mp hc with h | h
      · exact (hrgood c h).2.1
      · exact (he c h).1
    have hbok : okComp b := hb b (List.mem_cons_self _ _)
    have hbs : ∀ x ∈ bs, okComp x := fun x hx => hb x (List.mem_cons_of_mem _ hx)
    have hhead : ¬(b.head? = some '/') := by
      cases b with
      | nil => simp
      | cons c t =>
        simp only [List.head?_cons, Option.some.injEq]
        exact fun h => hbok.1 (h ▸ List.mem_cons_self c t)
    rw [List.foldl_cons]
    by_cases hend : (rcomps ++ e).getLast? = some []
    · have hesl : ('/' :: joinSlash (rcomps ++ e)).getLast? = some '/' :=
        (path_endswith _ hpne hpsep).mpr hend
      have hstep : joinStep ('/' :: joinSlash (rcomps ++ e)) b =
          ('/' :: joinSlash (rcomps ++ e)) ++ b := by
        unfold joinStep
        rw [if_neg hhead, if_pos (Or.inr hesl)]
      have hene : e ≠ [] := by
        rintro rfl
        rw [List.append_nil] at hend
        have hmem : ([] : List Char) ∈ rcomps := by
          have h2 := List.dropLast_append_getLast? [] (Option.mem_def.mpr hend)
          rw [← h2]
          simp
        exact (hrgood [] hmem).1 rfl
      have hdecomp : (rcomps ++ e).dropLast ++ [[]] = rcomps ++ e :=
        List.dropLast_append_getLast? [] (Option.mem_def.mpr hend)
      have hdrop : (rcomps ++ e).dropLast = rcomps ++ e.dropLast :=
        List.dropLast_append_of_ne_nil rcomps hene
      have h1 : rcomps ++ e = (rcomps ++ e.dropLast) ++ [[]] := by rw [← hdrop, hdecomp]
      have hne2 : rcomps ++ e.dropLast ≠ [] := fun h => hrne (List.append_eq_nil.mp h).1
      have hpath : ('/' :: joinSlash (rcomps ++ e)) ++ b =
          '/' :: joinSlash (rcomps ++ (e.dropLast ++ [b])) := by
        rw [h1, joinSlash_append (rcomps ++ e.dropLast) [[]] hne2 (by simp),
          ← List.append_assoc rcomps e.dropLast [b],
          joinSlash_append (rcomps ++ e.dropLast) [b] hne2 (by simp)]
        simp [joinSlash]
      obtain ⟨e', he', hfold⟩ := ih (e.dropLast ++ [b])
        (by
          intro c hc
          rcases List.mem_append.mp hc with h | h
          · exact he c (List.dropLast_subset e h)
          · simp at h
            subst h
            exact hbok) hbs
      exact ⟨e', he', by rw [hstep, hpath]; exact hfold⟩
    · have hesl : ¬(('/' :: joinSlash (rcomps ++ e)).getLast? = some '/') :=
        fun hh => hend ((path_endswith _ hpne hpsep).mp hh)
      have hstep : joinStep ('/' :: joinSlash (rcomps ++ e)) b =
          ('/' :: joinSlash (rcomps ++ e)) ++ '/' :: b := by
        unfold joinStep
        rw [if_neg hhead, if_neg (not_or.mpr ⟨by simp, hesl⟩)]
      have hpath : ('/' :: joinSlash (rcomps ++ e)) ++ '/' :: b =
          '/' :: joinSlash (rcomps ++ (e ++ [b])) := by
        rw [← List.append_assoc rcomps e [b],
          joinSlash_append (rcomps ++ e) [b] hpne (by simp)]
        simp [joinSlash]
      obtain ⟨e', he', hfold⟩ := ih (e ++ [b])
        (by
          intro c hc
          rcases List.mem_append.mp hc with h | h
          · exact he c h
          · simp at h
            subst h
            exact hbok) hbs
      exact ⟨e', he', by rw [hstep, hpath]; exact hfold⟩

/-- With no `..` component in sight, `normFold` keeps, in order, exactly the
components that are neither empty nor `.`. -/
theorem normFold_no_dotdot (is : Nat) :
    ∀ comps acc : List (List Char), (∀ c ∈ comps, c ≠ ['.', '.']) →
      normFold is comps acc =
        acc ++ comps.filter (fun c => !(c == [] || c == ['.'])) := by
  intro comps
  induction comps with
  | nil => intro acc _; simp [normFold]
  | cons comp rest ih =>
    intro acc h
    have hrest : ∀ c ∈ rest, c ≠ ['.', '.'] := fun c hc => h c (List.mem_cons_of_mem _ hc)
    by_cases hc : comp = [] ∨ comp = ['.']
    · rw [normFold, if_pos hc, ih _ hrest, List.filter_cons]
      have hp : (!(comp == [] || comp == ['.'])) = false := by
        rcases hc with rfl | rfl <;> simp
      rw [hp]
      simp
    · have hni : comp ≠ ['.', '.'] := h comp (List.mem_cons_self _ _)
      rw [normFold, if_neg hc, if_pos (Or.inl hni), ih _ hrest, List.filter_cons]
      have hp : (!(comp == [] || comp == ['.'])) = true := by
        obtain ⟨h1, h2⟩ := not_or.mp hc
        simp [h1, h2]
      rw [hp]
      simp [List.append_assoc]

/-- Evaluation of `normpathData` on an absolute path with a single leading
slash. -/
theorem normpathData_single_slash (p : List Char) (hne : p ≠ [])
    (hhead : p.head? = some '/')
    (htake : ¬(p.take 2 = ['/', '/'] ∧ p.take 3 ≠ ['/', '/', '/'])) :
    normpathData p =
      if '/' :: joinSlash (normFold 1 (pySplitChar '/' p) []) = [] then ['.']
      else '/' :: joinSlash (normFold 1 (pySplitChar '/' p) []) := by
  rw [normpathData, if_neg hne, hhead]
  rw [if_pos rfl, if_neg htake]
  rfl

/-- Normalizing a root-anchored path with acceptable extra components keeps
the root components as a prefix: only empty and `.` extras are dropped. -/
theorem normpath_rooted (rcomps e : List (List Char)) (hrne : rcomps ≠ [])
    (hrgood : ∀ c ∈ rcomps, c ≠ [] ∧ okComp c) (he : ∀ c ∈ e, okComp c) :
    ∃ e2, (∀ c ∈ e2, okComp c) ∧
      normpathData ('/' :: joinSlash (rcomps ++ e)) = '/' :: joinSlash (rcomps ++ e2) := by
  obtain ⟨r0, rrest, rfl⟩ : ∃ r0 rrest, rcomps = r0 :: rrest := by
    cases rcomps with
    | nil => exact absurd rfl hrne
    | cons a b => exact ⟨a, b, rfl⟩
  obtain ⟨c0, r0t, rfl⟩ : ∃ c0 r0t, r0 = c0 :: r0t := by
    cases r0 with
    | nil => exact absurd rfl (hrgood [] (List.mem_cons_self _ _)).1
    | cons a b => exact ⟨a, b, rfl⟩
  have hc0 : c0 ≠ '/' :=
    fun h => (hrgood _ (List.mem_cons_self _ _)).2.1 (h ▸ List.mem_cons_self _ _)
  have hjoin : ∃ junk, joinSlash (((c0 :: r0t) :: rrest) ++ e) = c0 :: junk := by
    rw [List.cons_append]
    cases hre : rrest ++ e with
    | nil => exact ⟨r0t, rfl⟩
    | cons q qs => exact ⟨r0t ++ '/' :: joinSlash (q :: qs), rfl⟩
  obtain ⟨junk, hjunk⟩ := hjoin
  have hpne : ((c0 :: r0t) :: rrest) ++ e ≠ [] := by simp
  have hpsep : ∀ c ∈ ((c0 :: r0t) :: rrest) ++ e, '/' ∉ c := by
    intro c hc
    rcases List.mem_append.mp hc with h | h
    · exact (hrgood c h).2.1
    · exact (he c h).1
  have hnodd : ∀ c ∈ ((c0 :: r0t) :: rrest) ++ e, c ≠ ['.', '.'] := by
    intro c hc
    rcases List.mem_append.mp hc with h | h
    · exact (hrgood c h).2.2.2
    · exact (he c h).2.2
  refine ⟨e.filter (fun c => !(c == [] || c == ['.'])),
    fun c hc => he c (List.mem_filter.mp hc).1, ?_⟩
  rw [normpathData_single_slash ('/' :: joinSlash (((c0 :: r0t) :: rrest) ++ e))
    (by simp) rfl
    (by
      rw [hjunk]
      rintro ⟨ht2, -⟩
      apply hc0
      simpa using ht2)]
  rw [show pySplitChar '/' ('/' :: joinSlash (((c0 :: r0t) :: rrest) ++ e)) =
      [] :: (((c0 :: r0t) :: rrest) ++ e) from by
    rw [pySplitChar, if_pos rfl, pySplitChar_joinSlash hpne hpsep]]
  rw [normFold, if_pos (Or.inl rfl), normFold_no_dotdot 1 _ [] hnodd, List.nil_append,
    List.filter_append]
  have hrfilter : ((c0 :: r0t) :: rrest).filter (fun c => !(c == [] || c == ['.'])) =
      (c0 :: r0t) :: rrest := by
    rw [List.filter_eq_self]
    intro c hc
    have h1 := (hrgood c hc).1
    have h2 := (hrgood c hc).2.2.1
    simp [h1, h2]
  rw [hrfilter, if_neg (by simp)]

/-- A list is a `startsWithL`-prefix of itself followed by anything. -/
theorem startsWithL_append (l t : List Char) : startsWithL l (l ++ t) = true := by
  induction l with
  | nil => rfl
  | cons c cs ih => simp [startsWithL, ih]

/-- Core prefix property: joining separator-free non-dot segments onto a
normalized absolute root and re-normalizing always yields a path that starts
with the root. -/
theorem clean_args_rooted (static_path : String) (args : List String)
    (rcomps : List (List Char))
    (hroot : static_path.data = '/' :: joinSlash rcomps) (hrne : rcomps ≠ [])
    (hrgood : ∀ c ∈ rcomps, c ≠ [] ∧ okComp c)
    (hclean : ∀ a ∈ args, '/' ∉ a.data ∧ a ≠ ".." ∧ a ≠ ".") :
    startsWithL static_path.data (_adapt_path (join static_path args)).data = true := by
  have hargsok : ∀ b ∈ args.map String.data, okComp b := by
    intro b hb
    obtain ⟨a, ha, rfl⟩ := List.mem_map.mp hb
    obtain ⟨h1, h2, h3⟩ := hclean a ha
    exact ⟨h1, fun hh => h3 (String.ext hh), fun hh => h2 (String.ext hh)⟩
  obtain ⟨e', he', hfold⟩ := pyJoin_inv rcomps hrne hrgood (args.map String.data) []
    (by simp) hargsok
  rw [List.append_nil] at hfold
  obtain ⟨e2, he2, hnorm⟩ := normpath_rooted rcomps e' hrne hrgood he'
  have hdata : (_adapt_path (join static_path args)).data =
      normpathData (List.foldl joinStep static_path.data (args.map String.data)) := rfl
  rw [hdata, hroot, hfold, hnorm]
  cases e2 with
  | nil => simpa using startsWithL_append ('/' :: joinSlash rcomps) []
  | cons q qs =>
    rw [joinSlash_append rcomps (q :: qs) hrne (by simp)]
    show startsWithL ('/' :: joinSlash rcomps)
      ('/' :: (joinSlash rcomps ++ '/' :: joinSlash (q :: qs))) = true
    simp [startsWithL, startsWithL_append]

/-- A filesystem in which only `/etc/passwd` — outside any static root —
exists and is readable. -/
def fsEtc : FileSystem :=
  { getmtime := fun p => if p = "/etc/passwd" then some 100 else none
    getsize := fun p => if p = "/etc/passwd" then some 7 else none
    isfile := fun p => p = "/etc/passwd"
    canOpen := fun p => p = "/etc/passwd"
    guess_type := fun _ => none }

/-- A GET request whose raw path carries no `.` (so no extension is
re-appended). -/
def envEtc : Environ :=
  { request_method := "GET", path_info := "/pub/etc/passwd"
    http_if_modified_since := none, http_if_none_match := none }

/-- C1, counterexample: the code performs no prefix comparison at all.  The
segment `"/etc/passwd"` (a segment that is itself an absolute path, as
`posixpath.join` resets on it) joins and normalizes to `/etc/passwd`, which is
not prefixed by the root `/r`; yet the request is not rejected: the filesystem
is accessed and the outcome is Success. -/
theorem C1_counterexample :
    startsWithL ("/r" : String).data (_adapt_path (join "/r" ["/etc/passwd"])).data = false ∧
    (_default fsEtc pdNone "/r" 3600 0 envEtc ["/etc/passwd"]).1.isSuccess = true ∧
    (_default fsEtc pdNone "/r" 3600 0 envEtc ["/etc/passwd"]).2 ≠ [] := by decide

/-- C1, amended: for every sequence of *separator-free* path segments whose
join onto the (normalized, absolute) static root normalizes to a path not
prefixed by the root, the request is rejected with NotFound before any
filesystem access.  (Separator-free escapes can only come from `..`/`.`
segments, which `INVALID_PATH_PARTS` rejects up front; a segment containing
`/` — e.g. an embedded absolute path — escapes undetected, per the
counterexample.) -/
theorem C1_slashfree_escape_rejected (fs : FileSystem) (pd : String → Option Int)
    (cma : Nat) (now : Int) (env : Environ) (static_path : String) (args : List String)
    (rcomps : List (List Char))
    (hroot : static_path.data = '/' :: joinSlash rcomps) (hrne : rcomps ≠ [])
    (hrgood : ∀ c ∈ rcomps, c ≠ [] ∧ okComp c)
    (hargs : ∀ a ∈ args, '/' ∉ a.data)
    (hesc : startsWithL static_path.data (_adapt_path (join static_path args)).data = false) :
    _default fs pd static_path cma now env args = (.NotFound, []) := by
  by_cases hI : INVALID_PATH_PARTS args = true
  · have hne : args ≠ [] := by
      rintro rfl
      simp [INVALID_PATH_PARTS] at hI
    exact default_invalid fs pd static_path cma now env args hne hI
  · exfalso
    have hI' : ∀ a ∈ args, ¬(a = ".." ∨ a = ".") := by
      intro a ha hor
      apply hI
      simp only [INVALID_PATH_PARTS, List.any_eq_true]
      exact ⟨a, ha, by rcases hor with rfl | rfl <;> simp⟩
    have hclean : ∀ a ∈ args, '/' ∉ a.data ∧ a ≠ ".." ∧ a ≠ "." := fun a ha =>
      ⟨hargs a ha, fun h => hI' a ha (Or.inl h), fun h => hI' a ha (Or.inr h)⟩
    rw [clean_args_rooted static_path args rcomps hroot hrne hrgood hclean] at hesc
    exact Bool.noConfusion hesc

/-- C1, witness: `[".."]` joins to `/r/..`, normalizing to `/`, which is not
prefixed by the root `/r`; the request is rejected NotFound with no
filesystem access. -/
theorem C1_witness :
    _default (mkFs 100) pdNone "/r" 3600 0 (mkEnv "GET" none none) [".."] = (.NotFound, []) :=
  C1_slashfree_escape_rejected (mkFs 100) pdNone 3600 0 (mkEnv "GET" none none) "/r"
    [".."] [['r']] (by decide) (by decide) (by decide) (by decide) (by decide)

end StaticController
